import Mathlib

/-!
Verification of the ESSA module (`prody/dynamics/essa.py`).

The development shallowly embeds the `ESSA` class: its mutable instance
attributes become an explicit state record, each method becomes a function
from states to states, and Python exceptions become explicit error values.
External collaborators that the repository keeps outside this module
(atom selection machinery, the GNM/ANM builders' eigensolver, the model
reducer, mode matching, fpocket, pandas) are embedded as record-of-functions
parameters or, where the spec pins their behaviour, as definitions marked
`Modelled from the spec:`.
-/

namespace EssaSpec

/-- One atom of a parsed structure: residue index, flags and identifiers,
as the selection predicates of `essa.py` read them. -/
structure Atom where
  resindex : Nat
  isCA : Bool
  isHeavy : Bool
  isProtein : Bool
  isHet : Bool
  chid : String
  resnum : Int
deriving DecidableEq

/-- A parsed structure (`atoms` argument of `setSystem`): a title and an
ordered list of atoms. -/
structure AtomGroup where
  title : String
  atoms : List Atom
deriving DecidableEq

/-- Modelled from the spec: the selection machinery (`atoms.select(...)`,
outside this module's source) returns the derived subset of atoms, as a
null object (`none`) when no atom matches, which is ProDy's convention that
`setSystem` relies on. -/
def agSelect (ag : AtomGroup) (p : Atom → Bool) : Option (List Atom) :=
  let r := ag.atoms.filter p
  if r.isEmpty then none else some r

/-- Modelled from the spec: selecting within an existing selection, with the
same null-object convention for an empty result. -/
def selSelect (s : List Atom) (p : Atom → Bool) : Option (List Atom) :=
  let r := s.filter p
  if r.isEmpty then none else some r

/-- Modelled from the spec: the `.ca` shortcut on a selection is the Cα
sub-selection (null when there is no Cα atom). -/
def selCA (s : List Atom) : Option (List Atom) :=
  selSelect s (fun a => a.isCA)

/-- Python truthiness of the `self._lig` attribute: `None` and the empty
string are falsy. -/
def pyTruthy : Option String → Bool
  | none => false
  | some s => !s.isEmpty

/-- Python rendering of an optional string, as an f-string would show it. -/
def pyShow : Option String → String
  | none => "None"
  | some s => s

/-- Python `str.split()`: split on whitespace, dropping empty fields. -/
def pySplit (s : String) : List String :=
  (s.splitOn " ").filter (fun t => !t.isEmpty)

/-- The pairing `zip(ligs[::2], ligs[1::2])` used on the ligand spec tokens:
consecutive tokens are paired, a trailing odd token is dropped. -/
def pairUp : List String → List (String × String)
  | a :: b :: rest => (a, b) :: pairUp rest
  | _ => []

/-- Python exceptions that the embedded control flow can signal. -/
inductive PyErr where
  | attributeOfNone (attr : String)
  | unboundLocal (name : String)
  | typeErr (msg : String)
deriving DecidableEq

/-- An elastic network model as `essa.py` constructs one: the builder is an
external collaborator, so the model records exactly what the module handed
to it (title, kind, atoms built on, cutoff) and whether it was reduced onto
a target selection. -/
structure ENModel where
  title : String
  kind : String
  builtOn : List Atom
  cutoff : ℚ
  reducedTo : Option (List Atom) := none
deriving DecidableEq

/-- A mode set appended to the ensemble: the model it came from, the number
of modes requested from `calcModes`, and the eigenvalues the external
eigensolver returned for it. -/
structure ModeSet where
  model : ENModel
  nModes : Nat
  eigvals : List ℚ
deriving DecidableEq

/-- The `ModeEnsemble` state that `scanResidues` builds. -/
structure Ensemble where
  title : String
  atoms : Option (List Atom)
  members : List ModeSet := []
  labels : List String := []
deriving DecidableEq

/-- A file written by a save method (only the path matters to the claims). -/
structure FileWrite where
  path : String
deriving DecidableEq

/-- The mutable instance state of an `ESSA` object, one field per attribute
assigned in `__init__`, plus the pocket tables attached later. -/
structure ESSAState where
  st_atoms : Option AtomGroup := none
  st_title : Option String := none
  st_lig : Option String := none
  st_heavy : Option (List Atom) := none
  st_ca : Option (List Atom) := none
  st_n_modes : Option Nat := none
  st_enm : Option String := none
  st_cutoff : Option ℚ := none
  st_lig_idx : Option (List (String × List Nat)) := none
  st_dist : Option ℚ := none
  st_ensemble : Option Ensemble := none
  st_labels : Option (List String) := none
  st_zscore : Option (List ℝ) := none

/-- The state `__init__` leaves behind: every attribute is `None`. -/
def initESSA : ESSAState := {}

/-- External collaborators of the scan: the ligand-contact selection
(`Modelled from the spec:` residues with a heavy atom within `dist` of the
named ligand, null when none), the eigensolver behind `calcModes` +
`getEigvals`, and the mode alignment behind `ModeEnsemble.match`
(`Modelled from the spec:` it reconciles mode correspondence member by
member, leaving membership, models and labels unchanged). -/
structure Ext where
  ligResidues : AtomGroup → ℚ → String → String → Option (List Nat)
  eig : ENModel → Nat → List ℚ
  align : Nat → List ℚ → List ℚ

/-- The ligand loop at the end of `setSystem`: for each `(chid, resnum)`
pair, key `chid + str(resnum)` maps to the residue indices returned by the
contact selection; a null selection makes `.getResindices()` raise. -/
def ligLoop (ext : Ext) (atoms : AtomGroup) (dist : ℚ) :
    List (String × String) → ESSAState → Except PyErr ESSAState
  | [], st => .ok st
  | (chid, resnum) :: rest, st =>
    match ext.ligResidues atoms dist chid resnum with
    | none => .error (.attributeOfNone "getResindices")
    | some idx =>
        ligLoop ext atoms dist rest
          { st with st_lig_idx := some ((st.st_lig_idx.getD []) ++ [(chid ++ resnum, idx)]) }

/-- `ESSA.setSystem`: records atoms, title and the ligand spec; when a
ligand is given, initialises the ligand map and reads `dist`
(default 4.5 Å); selects the heavy protein atoms (a null selection makes
the following `.ca` access raise) and their Cα sub-selection; finally
resolves the ligand-contact residues. -/
def setSystem (ext : Ext) (st : ESSAState) (atoms : AtomGroup)
    (lig : Option String := none) (dist : Option ℚ := none) :
    Except PyErr ESSAState :=
  let st1 := { st with st_atoms := some atoms, st_title := some atoms.title, st_lig := lig }
  let st2 := if pyTruthy st1.st_lig then
      { st1 with st_lig_idx := some [], st_dist := some (dist.getD (9/2)) }
    else st1
  match agSelect atoms (fun a => a.isProtein && a.isHeavy && !a.isHet) with
  | none => .error (.attributeOfNone "ca")
  | some heavy =>
    let st3 := { st2 with st_heavy := some heavy, st_ca := selCA heavy }
    if pyTruthy st3.st_lig then
      ligLoop ext atoms (st3.st_dist.getD (9/2)) (pairUp (pySplit (pyShow st3.st_lig))) st3
    else .ok st3

/-- Modelled from the spec: the default cutoff the builder selects
internally when the user gives none, 10 Å for the isotropic model (GNM)
and 15 Å for the anisotropic one (ANM); `getCutoff` then reports it. -/
def defaultCutoff (enm : String) : ℚ :=
  if enm = "gnm" then 10 else 15

/-- Modelled from the spec: `reduceModel` projects a model built on the
larger selection onto the target (Cα) selection, returning the reduced
model and the target selection. -/
def reduceModel (m : ENModel) (_sel target : List Atom) : ENModel × List Atom :=
  ({ m with reducedTo := some target }, target)

/-- The two reference-model `if` blocks of `scanResidues`: when `enm`
matches one of them, the corresponding builder runs on `self._ca` (raising
if that selection is null) with the user cutoff or the builder default, and
the local `ca_enm` gets bound together with the cutoff stored in
`self._cutoff`; when neither block runs, the local stays unbound. -/
def buildRefStep (enm : String) (caOpt : Option (List Atom)) (cutoff : Option ℚ) :
    Except PyErr (Option (ENModel × ℚ)) :=
  let step1 : Except PyErr (Option (ENModel × ℚ)) :=
    if enm = "gnm" then
      match caOpt with
      | none => .error (.typeErr "buildKirchhoff: coords must not be None")
      | some ca =>
        let cut := cutoff.getD (defaultCutoff "gnm")
        .ok (some ({ title := "ca", kind := "gnm", builtOn := ca, cutoff := cut }, cut))
    else .ok none
  match step1 with
  | .error e => .error e
  | .ok r1 =>
    if enm = "anm" then
      match caOpt with
      | none => .error (.typeErr "buildHessian: coords must not be None")
      | some ca =>
        let cut := cutoff.getD (defaultCutoff "anm")
        .ok (some ({ title := "ca", kind := "anm", builtOn := ca, cutoff := cut }, cut))
    else .ok r1

/-- The perturbed, reduced model the loop body of `scanResidues` builds for
residue `i`: the perturbed selection keeps every Cα atom and adds residue
`i`'s heavy atoms, the model is built with the recorded cutoff and is then
reduced onto the Cα selection. -/
def perturbedModel (enm : String) (cut : ℚ) (heavy ca : List Atom) (i : Nat) : ENModel :=
  (reduceModel
    { title := "res_" ++ toString i, kind := enm,
      builtOn := heavy.filter (fun a => a.isCA || a.resindex == i), cutoff := cut }
    (heavy.filter (fun a => a.isCA || a.resindex == i)) ca).1

/-- The residue loop of `scanResidues`: for each residue index of the Cα
selection, select `calpha or resindex i` within the heavy selection (a null
selection makes the builder raise), build, reduce, compute modes, and
append the mode set and the unreduced model's title to the accumulators. -/
def scanLoop (ext : Ext) (enm : String) (cut : ℚ) (n : Nat) (heavy ca : List Atom) :
    List Nat → List ModeSet → List String → Except PyErr (List ModeSet × List String)
  | [], members, labels => .ok (members, labels)
  | i :: rest, members, labels =>
    match selSelect heavy (fun a => a.isCA || a.resindex == i) with
    | none => .error (.typeErr "build: coords must not be None")
    | some tmp =>
      let tmpEnm : ENModel :=
        { title := "res_" ++ toString i, kind := enm, builtOn := tmp, cutoff := cut }
      let red := (reduceModel tmpEnm tmp ca).1
      let ms : ModeSet := { model := red, nModes := n, eigvals := ext.eig red n }
      scanLoop ext enm cut n heavy ca rest (members ++ [ms]) (labels ++ [tmpEnm.title])

/-- The member-by-member alignment underlying `ModeEnsemble.match`: member
`k` keeps its model and mode count, its eigenvalue ordering is realigned. -/
def alignMembers (ext : Ext) : Nat → List ModeSet → List ModeSet
  | _, [] => []
  | k, m :: rest => { m with eigvals := ext.align k m.eigvals } :: alignMembers ext (k + 1) rest

/-- `ModeEnsemble.match`, `Modelled from the spec:` it reconciles the mode
correspondence across members (an ordering alignment of each member's
modes), leaving the member count, the models and the labels unchanged. -/
def matchEns (ext : Ext) (e : Ensemble) : Ensemble :=
  { e with members := alignMembers ext 0 e.members }

/-- Eigenvalues of `self._ensemble[0]`, the reference member. -/
def ensRefEigvals (e : Ensemble) : List ℚ :=
  match e.members with
  | [] => []
  | m :: _ => m.eigvals

/-- Stacked eigenvalues of `self._ensemble[1:]`, the perturbed members. -/
def ensPertEigvals (e : Ensemble) : List (List ℚ) :=
  (e.members.drop 1).map (fun m => m.eigvals)

/-- `numpy.mean` of a one-dimensional array, as a rational. -/
def qmean (xs : List ℚ) : ℚ := xs.sum / (xs.length : ℚ)

/-- The ESSA computation part of `scanResidues`, before the z-score:
`num = eigvals[1:] - denom`, `eig_diff = num / denom * 100`,
`eig_diff_mean = mean(eig_diff, axis=1)`. -/
def eigDiffMean (denom : List ℚ) (pert : List (List ℚ)) : List ℚ :=
  let num := pert.map (fun row => List.zipWith (fun a b => a - b) row denom)
  let eig_diff := num.map (fun row => List.zipWith (fun a b => a / b * 100) row denom)
  eig_diff.map qmean

/-- `scipy.stats.zscore` with its default `ddof = 0`: subtract the mean,
divide by the population standard deviation, over the reals. -/
noncomputable def zscoreOf (xs : List ℚ) : List ℝ :=
  let n : ℝ := (xs.length : ℝ)
  let mu : ℝ := ((xs.map (fun x => (x : ℝ))).sum) / n
  let sd : ℝ := Real.sqrt (((xs.map (fun x => ((x : ℝ) - mu) ^ 2)).sum) / n)
  xs.map (fun x => ((x : ℝ) - mu) / sd)

/-- The score vector `scanResidues` stores in `self._zscore`: the z-score
transform of the mean relative eigenvalue differences. -/
noncomputable def essaScore (denom : List ℚ) (pert : List (List ℚ)) : List ℝ :=
  zscoreOf (eigDiffMean denom pert)

/-- The tail of a successful scan: set the labels, `match()` the ensemble,
store it, and compute the z-scores from its stacked eigenvalues. -/
noncomputable def scanFinish (ext : Ext) (st : ESSAState) (ens0 : Ensemble)
    (members : List ModeSet) (labels : List String) : ESSAState × Option PyErr :=
  let ens := matchEns ext { ens0 with members := members, labels := labels }
  let st := { st with st_ensemble := some ens, st_labels := some labels }
  let denom := ensRefEigvals ens
  let pert := ensPertEigvals ens
  ({ st with st_zscore := some (essaScore denom pert) }, none)

/-- `ESSA.scanResidues`: records `n_modes` and `enm`, creates the ensemble
anchored on the Cα selection with the label list `['ref']`, builds the
reference model (an unknown `enm` leaves the local `ca_enm` unbound, so the
following `calcModes` call raises `UnboundLocalError`), runs the residue
loop, and finishes with the ensemble match and the z-score computation. -/
noncomputable def scanResidues (ext : Ext) (st : ESSAState)
    (n_modes : Nat := 10) (enm : String := "gnm") (cutoff : Option ℚ := none) :
    ESSAState × Option PyErr :=
  let st1 := { st with st_n_modes := some n_modes, st_enm := some enm }
  let ens0 : Ensemble := { title := pyShow st1.st_title, atoms := st1.st_ca }
  let st2 := { st1 with st_ensemble := some ens0, st_labels := some ["ref"] }
  match buildRefStep enm st2.st_ca cutoff with
  | .error e => (st2, some e)
  | .ok none => (st2, some (.unboundLocal "ca_enm"))
  | .ok (some (caEnm, cut)) =>
    let st3 := { st2 with st_cutoff := some cut }
    let refMS : ModeSet := { model := caEnm, nModes := n_modes, eigvals := ext.eig caEnm n_modes }
    match st3.st_heavy with
    | none => (st3, some (.attributeOfNone "select"))
    | some heavy =>
      match scanLoop ext enm cut n_modes heavy caEnm.builtOn
          (caEnm.builtOn.map (fun a => a.resindex)) [refMS] ["ref"] with
      | .error e => (st3, some e)
      | .ok (members, labels) => scanFinish ext st3 ens0 members labels

/-- The warning `LOGGER.warning('No ligand provided.')` emits. -/
def warnNoLig : String := "No ligand provided."

/-- `ESSA.getLigandResidueIndices`: the ligand map when a ligand was set,
otherwise a warning and the implicit `None` return. The second component
collects the warnings logged by the call. -/
def getLigandResidueIndices (st : ESSAState) :
    Option (List (String × List Nat)) × List String :=
  if pyTruthy st.st_lig then (st.st_lig_idx, []) else (none, [warnNoLig])

/-- `ESSA.saveLigandResidueIndices`: pickles the ligand map when a ligand
was set, otherwise a warning and no file; the result records the file
written (if any) and the warnings logged. -/
def saveLigandResidueIndices (st : ESSAState) : Option FileWrite × List String :=
  if pyTruthy st.st_lig then
    (some { path := pyShow st.st_title ++ "_ligand_resindices.pkl" }, [])
  else (none, [warnNoLig])

/-- The availability of the external pocket machinery, and the body of
`scanPockets` past its two guards (fpocket invocation, file parsing and
table building), which is file-system dependent and therefore kept
abstract: it returns the updated state and the warnings it logs. -/
structure PocketExt where
  fpocketPath : Option String
  pandasOk : Bool
  body : ESSAState → Except PyErr (ESSAState × List String)

/-- `ESSA.scanPockets`: returns `None` with a warning when `which('fpocket')`
finds nothing, returns `None` with a warning when importing pandas fails,
and otherwise runs the scanning body. The value component is the Python
return value (always `None`; the early exits return it explicitly). -/
def scanPockets (pe : PocketExt) (st : ESSAState) :
    Except PyErr (ESSAState × Option Unit × List String) :=
  match pe.fpocketPath with
  | none => .ok (st, none, ["Fpocket 3.0 was not found, please install it."])
  | some _ =>
    if pe.pandasOk then
      match pe.body st with
      | .error e => .error e
      | .ok (st1, ws) => .ok (st1, none, ws)
    else .ok (st, none, ["No module named pandas was found, please install it."])

/-- One row of the pocket z-score table `self._df_zs`: the pocket number
(the table index), the max and median ESSA z-scores over the pocket's
residues, and the z-normalised local hydrophobic density. -/
structure PZRow where
  pocket : Nat
  essaMax : ℚ
  essaMed : ℚ
  lhd : ℚ
deriving DecidableEq

/-- The LHD column of the pocket z-score table. -/
def lhdCol (t : List PZRow) : List ℚ := t.map (fun r => r.lhd)

/-- `count_nonzero(lhd >= 0.)`: the number of pockets with non-negative
normalised LHD. -/
def nNonneg (t : List PZRow) : Nat :=
  (lhdCol t).countP (fun x => decide (0 ≤ x))

/-- An ascending sort of a rational list (what `numpy.quantile` does
internally before interpolating). -/
def sortedQ (xs : List ℚ) : List ℚ :=
  xs.mergeSort (fun a b => decide (a ≤ b))

/-- `numpy.quantile(lhd, q=.85)` with the default linear interpolation:
with `h = (len - 1) * 0.85`, interpolate between the sorted values at
positions `floor h` and `floor h + 1`. -/
def quantile85 (xs : List ℚ) : ℚ :=
  let s := sortedQ xs
  let h : ℚ := ((s.length : ℚ) - 1) * (17/20)
  let i : Nat := (⌊h⌋).toNat
  let lo := s.getD i 0
  let hi := s.getD (i + 1) lo
  lo + (h - (i : ℚ)) * (hi - lo)

/-- The filter of the max-criterion block of `rankPockets`: keep the rows
with `LHD >= 0` when at least a quarter of the pockets (integer division)
have non-negative LHD, otherwise keep the rows with `LHD >=` the 85th
percentile of the LHD column. -/
def filterMaxRows (t : List PZRow) : List PZRow :=
  let lhd := lhdCol t
  let n := nNonneg t
  let q := quantile85 lhd
  if lhd.length / 4 ≤ n then t.filter (fun r => decide (0 ≤ r.lhd))
  else t.filter (fun r => decide (q ≤ r.lhd))

/-- The filter of the median-criterion block of `rankPockets`, computed by
the same rule from the same `n` and `q`. -/
def filterMedRows (t : List PZRow) : List PZRow :=
  let lhd := lhdCol t
  let n := nNonneg t
  let q := quantile85 lhd
  if lhd.length / 4 ≤ n then t.filter (fun r => decide (0 ≤ r.lhd))
  else t.filter (fun r => decide (q ≤ r.lhd))

/-- The LHD filter threshold as the spec words it: `0` when at least a
quarter of the pockets (integer division) have non-negative normalised
LHD, the 85th percentile of the normalised LHD column otherwise. This
definition follows the spec's words, to be compared with the filters the
code performs. -/
def lhdThreshold (t : List PZRow) : ℚ :=
  if t.length / 4 ≤ nNonneg t then 0 else quantile85 (lhdCol t)

/-- Round half to even (`numpy.round`'s tie rule) to an integer. -/
def roundHalfEven (x : ℚ) : ℤ :=
  let f := ⌊x⌋
  let r := x - (f : ℚ)
  if r < 1/2 then f
  else if 1/2 < r then f + 1
  else if 2 ∣ f then f else f + 1

/-- `Series.round(d)`: round to `d` decimal places, ties to even. -/
def roundDec (d : Nat) (x : ℚ) : ℚ :=
  ((roundHalfEven (x * 10 ^ d) : ℚ)) / 10 ^ d

/-- A filtered, rounded two-column ranking row: the pocket number, the ESSA
criterion rounded to 1 decimal and the LHD rounded to 2 decimals. -/
structure RankRow where
  pocket : Nat
  essa : ℚ
  lhd : ℚ
deriving DecidableEq

/-- The rounded max-criterion rows of `rankPockets` (in table order). -/
def roundedMaxRows (t : List PZRow) : List RankRow :=
  (filterMaxRows t).map (fun r => { pocket := r.pocket, essa := roundDec 1 r.essaMax, lhd := roundDec 2 r.lhd })

/-- The rounded median-criterion rows of `rankPockets` (in table order). -/
def roundedMedRows (t : List PZRow) : List RankRow :=
  (filterMedRows t).map (fun r => { pocket := r.pocket, essa := roundDec 1 r.essaMed, lhd := roundDec 2 r.lhd })

/-- The descending lexicographic comparison of
`sort_values([ESSA, LHD], ascending=False)`: `a` may precede `b` when its
ESSA value is larger, or equal with an LHD at least as large. -/
def descLe (a b : RankRow) : Bool :=
  decide (b.essa < a.essa ∨ (a.essa = b.essa ∧ b.lhd ≤ a.lhd))

/-- The sorted max-criterion rows: a stable descending lexicographic sort,
as pandas' multi-column `sort_values` (a stable lexsort) performs it. -/
def sortedMaxRows (t : List PZRow) : List RankRow :=
  (roundedMaxRows t).mergeSort descLe

/-- The sorted median-criterion rows. -/
def sortedMedRows (t : List PZRow) : List RankRow :=
  (roundedMedRows t).mergeSort descLe

/-- `self._idx_max`: the pocket numbers in max-criterion rank order. -/
def rankMaxIdx (t : List PZRow) : List Nat :=
  (sortedMaxRows t).map (fun r => r.pocket)

/-- `self._idx_med`: the pocket numbers in median-criterion rank order. -/
def rankMedIdx (t : List PZRow) : List Nat :=
  (sortedMedRows t).map (fun r => r.pocket)

/-- The spec's wording of the score algorithm, step by step: for each
perturbed member, per mode, the relative eigenvalue change
`(lambda_perturbed - lambda_ref) / lambda_ref * 100`, averaged across the
modes to one scalar per residue. This definition follows the spec's words,
to be compared with the matrix-operation pipeline of the code. -/
def specMeanShift (denom : List ℚ) (pert : List (List ℚ)) : List ℚ :=
  pert.map (fun row => qmean (List.zipWith (fun lp lr => (lp - lr) / lr * 100) row denom))

/-- The spec's wording of the final score: the z-score transform of the
per-residue mean eigenvalue shifts. -/
noncomputable def specScoreVector (denom : List ℚ) (pert : List (List ℚ)) : List ℝ :=
  zscoreOf (specMeanShift denom pert)

/-- The mode set the loop of `scanResidues` appends for residue `i`. -/
def perturbedMS (ext : Ext) (enm : String) (cut : ℚ) (n : Nat)
    (heavy ca : List Atom) (i : Nat) : ModeSet :=
  { model := perturbedModel enm cut heavy ca i, nModes := n,
    eigvals := ext.eig (perturbedModel enm cut heavy ca i) n }

section Fixtures

/-- A sample instantiation of the external collaborators, used to exercise
the theorems on concrete inputs. -/
def extEx : Ext :=
  { ligResidues := fun _ _ _ _ => some [], eig := fun _ _ => [1, 2], align := fun _ e => e }

/-- A sample Cα atom of residue 0. -/
def atomA : Atom := { resindex := 0, isCA := true, isHeavy := true, isProtein := true, isHet := false, chid := "A", resnum := 1 }

/-- A sample side-chain heavy atom of residue 0. -/
def atomB : Atom := { resindex := 0, isCA := false, isHeavy := true, isProtein := true, isHet := false, chid := "A", resnum := 1 }

/-- A sample Cα atom of residue 1. -/
def atomC : Atom := { resindex := 1, isCA := true, isHeavy := true, isProtein := true, isHet := false, chid := "A", resnum := 2 }

/-- A sample hetero atom (matches no protein selector). -/
def atomH : Atom := { resindex := 2, isCA := false, isHeavy := true, isProtein := false, isHet := true, chid := "A", resnum := 3 }

/-- A sample parsed structure with two Cα residues. -/
def agEx : AtomGroup := { title := "t", atoms := [atomA, atomB, atomC] }

/-- A sample structure with no protein heavy non-hetero atom. -/
def agHet : AtomGroup := { title := "h", atoms := [atomH] }

/-- A configured state, as `setSystem` leaves it for `agEx` without a
ligand. -/
def stEx : ESSAState :=
  { initESSA with st_ca := some [atomA, atomC], st_heavy := some [atomA, atomB, atomC] }

/-- The ensemble a scan of `stEx` with two modes produces. -/
def ensEx : Ensemble :=
  { title := "None", atoms := some [atomA, atomC],
    members := [
      { model := { title := "ca", kind := "gnm", builtOn := [atomA, atomC], cutoff := 10 },
        nModes := 2, eigvals := [1, 2] },
      { model := { title := "res_0", kind := "gnm", builtOn := [atomA, atomB, atomC],
                   cutoff := 10, reducedTo := some [atomA, atomC] },
        nModes := 2, eigvals := [1, 2] },
      { model := { title := "res_1", kind := "gnm", builtOn := [atomA, atomC],
                   cutoff := 10, reducedTo := some [atomA, atomC] },
        nModes := 2, eigvals := [1, 2] }],
    labels := ["ref", "res_0", "res_1"] }

/-- A sample pocket z-score table with a tie between pockets 1 and 2. -/
def tEx : List PZRow :=
  [{ pocket := 1, essaMax := 2, essaMed := 1, lhd := 1/2 },
   { pocket := 2, essaMax := 2, essaMed := 1, lhd := 1/2 },
   { pocket := 3, essaMax := 0, essaMed := 0, lhd := -1 },
   { pocket := 4, essaMax := 3, essaMed := 2, lhd := 0 }]

end Fixtures

section ScanLemmas

theorem selSelect_eq_some {s : List Atom} {p : Atom → Bool} {r : List Atom}
    (h : selSelect s p = some r) : r = s.filter p := by
  unfold selSelect at h
  by_cases he : (s.filter p).isEmpty <;> simp [he] at h
  exact h.symm

theorem alignMembers_length (ext : Ext) : ∀ (k : Nat) (ms : List ModeSet),
    (alignMembers ext k ms).length = ms.length
  | _, [] => rfl
  | k, _ :: rest => by simp [alignMembers, alignMembers_length ext (k + 1) rest]

theorem alignMembers_map_model (ext : Ext) : ∀ (k : Nat) (ms : List ModeSet),
    (alignMembers ext k ms).map (fun m => m.model) = ms.map (fun m => m.model)
  | _, [] => rfl
  | k, _ :: rest => by simp [alignMembers, alignMembers_map_model ext (k + 1) rest]

theorem alignMembers_mem {ext : Ext} {m : ModeSet} :
    ∀ {k : Nat} {ms : List ModeSet}, m ∈ alignMembers ext k ms →
    ∃ m0 ∈ ms, m.model = m0.model ∧ m.nModes = m0.nModes := by
  intro k ms
  induction ms generalizing k with
  | nil => intro h; simp [alignMembers] at h
  | cons a rest ih =>
    intro h
    simp only [alignMembers, List.mem_cons] at h
    rcases h with h | h
    · subst h
      exact ⟨a, List.mem_cons_self a rest, rfl, rfl⟩
    · obtain ⟨m0, hm0, he⟩ := ih h
      exact ⟨m0, List.mem_cons_of_mem a hm0, he⟩

theorem scanLoop_ok (ext : Ext) (enm : String) (cut : ℚ) (n : Nat)
    (heavy ca : List Atom) :
    ∀ (idxs : List Nat) (acc : List ModeSet) (lacc : List String)
      (members : List ModeSet) (labels : List String),
      scanLoop ext enm cut n heavy ca idxs acc lacc = .ok (members, labels) →
      members = acc ++ idxs.map (perturbedMS ext enm cut n heavy ca) ∧
      labels = lacc ++ idxs.map (fun i => "res_" ++ toString i) := by
  intro idxs
  induction idxs with
  | nil =>
    intro acc lacc members labels h
    simp only [scanLoop] at h
    cases h
    simp
  | cons i rest ih =>
    intro acc lacc members labels h
    simp only [scanLoop] at h
    cases hsel : selSelect heavy (fun a => a.isCA || a.resindex == i) with
    | none => rw [hsel] at h; cases h
    | some tmp =>
      rw [hsel] at h
      have htmp := selSelect_eq_some hsel
      obtain ⟨h1, h2⟩ := ih _ _ _ _ h
      subst htmp
      constructor
      · rw [h1]
        simp [perturbedMS, perturbedModel, reduceModel, List.append_assoc]
      · rw [h2]
        simp [List.append_assoc]

theorem buildRefStep_ok_some {enm : String} {caOpt : Option (List Atom)}
    {cutoff : Option ℚ} {caEnm : ENModel} {cut : ℚ}
    (h : buildRefStep enm caOpt cutoff = .ok (some (caEnm, cut))) :
    (enm = "gnm" ∨ enm = "anm") ∧
    ∃ ca, caOpt = some ca ∧
      cut = cutoff.getD (defaultCutoff enm) ∧
      caEnm = { title := "ca", kind := enm, builtOn := ca,
                cutoff := cutoff.getD (defaultCutoff enm) } := by
  by_cases hg : enm = "gnm"
  · subst hg
    cases caOpt with
    | none => simp [buildRefStep] at h
    | some ca =>
      simp only [buildRefStep, String.reduceEq, reduceIte, Except.ok.injEq,
        Option.some.injEq, Prod.mk.injEq] at h
      obtain ⟨h1, h2⟩ := h
      exact ⟨Or.inl rfl, ca, rfl, h2.symm, h1.symm⟩
  · by_cases ha : enm = "anm"
    · subst ha
      cases caOpt with
      | none => simp [buildRefStep] at h
      | some ca =>
        simp only [buildRefStep, String.reduceEq, reduceIte, Except.ok.injEq,
          Option.some.injEq, Prod.mk.injEq] at h
        obtain ⟨h1, h2⟩ := h
        exact ⟨Or.inr rfl, ca, rfl, h2.symm, h1.symm⟩
    · simp [buildRefStep, hg, ha] at h

theorem buildRefStep_none {enm : String} (caOpt : Option (List Atom))
    (cutoff : Option ℚ) (hg : enm ≠ "gnm") (ha : enm ≠ "anm") :
    buildRefStep enm caOpt cutoff = .ok none := by
  simp [buildRefStep, hg, ha]

/-- The state a successful scan reaches: the shape of `scanResidues`'s
result in terms of its intermediate values. -/
theorem scanResidues_ok_shape (ext : Ext) (st : ESSAState) (n : Nat)
    (enm : String) (cutoff : Option ℚ) (st' : ESSAState)
    (h : scanResidues ext st n enm cutoff = (st', none)) :
    ∃ caEnm cut heavy members labels,
      buildRefStep enm st.st_ca cutoff = .ok (some (caEnm, cut)) ∧
      st.st_heavy = some heavy ∧
      scanLoop ext enm cut n heavy caEnm.builtOn
        (caEnm.builtOn.map (fun a => a.resindex))
        [{ model := caEnm, nModes := n, eigvals := ext.eig caEnm n }] ["ref"] =
        .ok (members, labels) ∧
      st' = (scanFinish ext
        { st with st_n_modes := some n, st_enm := some enm,
                  st_ensemble := some { title := pyShow st.st_title, atoms := st.st_ca },
                  st_labels := some ["ref"], st_cutoff := some cut }
        { title := pyShow st.st_title, atoms := st.st_ca } members labels).1 := by
  unfold scanResidues at h
  dsimp only [] at h
  cases hb : buildRefStep enm st.st_ca cutoff with
  | error e => rw [hb] at h; simp at h
  | ok r =>
    cases r with
    | none => rw [hb] at h; simp at h
    | some pr =>
      obtain ⟨caEnm, cut⟩ := pr
      rw [hb] at h
      dsimp only [] at h
      cases hh : st.st_heavy with
      | none => rw [hh] at h; simp at h
      | some heavy =>
        rw [hh] at h
        dsimp only [] at h
        cases hl : scanLoop ext enm cut n heavy caEnm.builtOn
            (caEnm.builtOn.map (fun a => a.resindex))
            [{ model := caEnm, nModes := n, eigvals := ext.eig caEnm n }] ["ref"] with
        | error e => rw [hl] at h; simp at h
        | ok res =>
          obtain ⟨members, labels⟩ := res
          rw [hl] at h
          dsimp only [] at h
          refine ⟨caEnm, cut, heavy, members, labels, rfl, rfl, hl, ?_⟩
          have h1 := congrArg Prod.fst h
          exact h1.symm

theorem scanFinish_fst_ensemble (ext : Ext) (st : ESSAState) (ens0 : Ensemble)
    (members : List ModeSet) (labels : List String) :
    ((scanFinish ext st ens0 members labels).1).st_ensemble =
      some (matchEns ext { ens0 with members := members, labels := labels }) := rfl

theorem scanFinish_fst_zscore (ext : Ext) (st : ESSAState) (ens0 : Ensemble)
    (members : List ModeSet) (labels : List String) :
    ((scanFinish ext st ens0 members labels).1).st_zscore =
      some (essaScore
        (ensRefEigvals (matchEns ext { ens0 with members := members, labels := labels }))
        (ensPertEigvals (matchEns ext { ens0 with members := members, labels := labels }))) := rfl

theorem scanFinish_fst_cutoff (ext : Ext) (st : ESSAState) (ens0 : Ensemble)
    (members : List ModeSet) (labels : List String) :
    ((scanFinish ext st ens0 members labels).1).st_cutoff = st.st_cutoff := rfl

theorem zipWith_fuse (row : List ℚ) : ∀ denom : List ℚ,
    List.zipWith (fun a b => a / b * 100) (List.zipWith (fun a b => a - b) row denom) denom =
    List.zipWith (fun lp lr => (lp - lr) / lr * 100) row denom := by
  induction row with
  | nil => intro denom; simp
  | cons x xs ih =>
    intro denom
    cases denom with
    | nil => simp
    | cons d ds => simp [ih ds]

theorem eigDiffMean_eq_specMeanShift (denom : List ℚ) (pert : List (List ℚ)) :
    eigDiffMean denom pert = specMeanShift denom pert := by
  unfold eigDiffMean specMeanShift
  simp only [List.map_map]
  congr 1
  funext row
  simp only [Function.comp_apply]
  rw [zipWith_fuse]

end ScanLemmas

/-- C1: for every completed residue scan, the stored per-residue score
vector is exactly the spec's function of the ensemble eigenvalues: per
perturbed member and mode the relative eigenvalue change
`(lambda_perturbed - lambda_ref) / lambda_ref * 100`, averaged over the
modes to one scalar per residue, the resulting vector z-score transformed;
under the precondition that no reference eigenvalue is zero. -/
theorem essa_zscore_matches_spec (ext : Ext) (st : ESSAState) (n : Nat)
    (enm : String) (cutoff : Option ℚ) (st' : ESSAState) (ens : Ensemble)
    (hscan : scanResidues ext st n enm cutoff = (st', none))
    (hens : st'.st_ensemble = some ens)
    (hnz : ∀ d ∈ ensRefEigvals ens, d ≠ 0) :
    st'.st_zscore = some (specScoreVector (ensRefEigvals ens) (ensPertEigvals ens)) := by
  obtain ⟨caEnm, cut, heavy, members, labels, hb, hh, hl, hst⟩ :=
    scanResidues_ok_shape ext st n enm cutoff st' hscan
  subst hst
  rw [scanFinish_fst_ensemble] at hens
  have hM := Option.some.inj hens
  rw [scanFinish_fst_zscore, hM]
  unfold essaScore specScoreVector
  rw [eigDiffMean_eq_specMeanShift]

/-- C1 witness: the theorem applied to a concrete two-residue scan. -/
theorem essa_zscore_matches_spec_witness :
    ((scanResidues extEx stEx 2 "gnm" none).1).st_zscore =
      some (specScoreVector (ensRefEigvals ensEx) (ensPertEigvals ensEx)) :=
  essa_zscore_matches_spec extEx stEx 2 "gnm" none
    (scanResidues extEx stEx 2 "gnm" none).1 ensEx rfl (by decide) (by decide)

/-- C4: after a completed scan over a structure whose Cα selection lists
`N` residues (in ascending residue-index order, as ProDy selections do),
the ensemble has exactly `N + 1` members: member 0 is the reference model
labelled `ref`, and members `1..N` are the perturbed reduced models, one
per residue, appended in the ascending residue-index order of the Cα
selection. -/
theorem scan_ensemble_member_invariant (ext : Ext) (st : ESSAState) (n : Nat)
    (enm : String) (cutoff : Option ℚ) (st' : ESSAState) (ens : Ensemble)
    (ca heavy : List Atom)
    (hca : st.st_ca = some ca) (hheavy : st.st_heavy = some heavy)
    (hasc : (ca.map (fun a => a.resindex)).Pairwise (· < ·))
    (hscan : scanResidues ext st n enm cutoff = (st', none))
    (hens : st'.st_ensemble = some ens) :
    ens.members.length = ca.length + 1 ∧
    ens.labels = "ref" :: (ca.map (fun a => a.resindex)).map (fun i => "res_" ++ toString i) ∧
    ens.members.map (fun m => m.model) =
      { title := "ca", kind := enm, builtOn := ca,
        cutoff := cutoff.getD (defaultCutoff enm) } ::
        (ca.map (fun a => a.resindex)).map
          (fun i => perturbedModel enm (cutoff.getD (defaultCutoff enm)) heavy ca i) ∧
    (ca.map (fun a => a.resindex)).Pairwise (· < ·) := by
  obtain ⟨caEnm, cut, hv, members, labels, hb, hh, hl, hst⟩ :=
    scanResidues_ok_shape ext st n enm cutoff st' hscan
  obtain ⟨-, ca', hca', hcut, hcaEnm⟩ := buildRefStep_ok_some hb
  have hceq : ca' = ca := Option.some.inj (hca'.symm.trans hca)
  have hveq : hv = heavy := Option.some.inj (hh.symm.trans hheavy)
  have hbuilt : caEnm.builtOn = ca := by rw [hcaEnm]; exact hceq
  obtain ⟨hm, hlab⟩ := scanLoop_ok ext enm cut n hv caEnm.builtOn _ _ _ _ _ hl
  subst hst
  rw [scanFinish_fst_ensemble] at hens
  have hM := Option.some.inj hens
  subst hM
  constructor
  · show (alignMembers ext 0 members).length = ca.length + 1
    rw [alignMembers_length, hm, hbuilt]
    simp
  constructor
  · show labels = _
    rw [hlab, hbuilt]
    rfl
  constructor
  · show (alignMembers ext 0 members).map (fun m => m.model) = _
    rw [alignMembers_map_model, hm, hbuilt, hveq]
    simp only [List.map_append, List.map_map, List.map_cons, List.map_nil]
    rw [hcaEnm, ← hcut, hceq]
    rfl
  · exact hasc

/-- C4 witness: the theorem applied to a concrete two-residue scan. -/
theorem scan_ensemble_member_invariant_witness :
    ensEx.members.length = [atomA, atomC].length + 1 ∧
    ensEx.labels = "ref" :: ([atomA, atomC].map (fun a => a.resindex)).map
      (fun i => "res_" ++ toString i) ∧
    ensEx.members.map (fun m => m.model) =
      { title := "ca", kind := "gnm", builtOn := [atomA, atomC],
        cutoff := (none : Option ℚ).getD (defaultCutoff "gnm") } ::
        ([atomA, atomC].map (fun a => a.resindex)).map
          (fun i => perturbedModel "gnm" ((none : Option ℚ).getD (defaultCutoff "gnm"))
            [atomA, atomB, atomC] [atomA, atomC] i) ∧
    ([atomA, atomC].map (fun a => a.resindex)).Pairwise (· < ·) :=
  scan_ensemble_member_invariant extEx stEx 2 "gnm" none
    (scanResidues extEx stEx 2 "gnm" none).1 ensEx [atomA, atomC] [atomA, atomB, atomC]
    rfl rfl (by decide) rfl (by decide)

/-- C5: in every completed scan, the recorded cutoff is the user cutoff
when one was supplied and the builder's internally selected default
otherwise, and every ensemble member, the reference and all perturbed
models alike, was built with exactly that cutoff and with the same number
of modes `n_modes`. -/
theorem scan_uniform_cutoff_nmodes (ext : Ext) (st : ESSAState) (n : Nat)
    (enm : String) (cutoff : Option ℚ) (st' : ESSAState) (ens : Ensemble)
    (hscan : scanResidues ext st n enm cutoff = (st', none))
    (hens : st'.st_ensemble = some ens) :
    st'.st_cutoff = some (cutoff.getD (defaultCutoff enm)) ∧
    (∀ c, cutoff = some c → st'.st_cutoff = some c) ∧
    ∀ ms ∈ ens.members,
      ms.model.cutoff = cutoff.getD (defaultCutoff enm) ∧ ms.nModes = n := by
  obtain ⟨caEnm, cut, heavy, members, labels, hb, hh, hl, hst⟩ :=
    scanResidues_ok_shape ext st n enm cutoff st' hscan
  obtain ⟨_, ca', hca', hcut, hcaEnm⟩ := buildRefStep_ok_some hb
  obtain ⟨hm, hlab⟩ := scanLoop_ok ext enm cut n heavy caEnm.builtOn _ _ _ _ _ hl
  subst hst
  have hcutoff : ((scanFinish ext
      { st with st_n_modes := some n, st_enm := some enm,
                st_ensemble := some { title := pyShow st.st_title, atoms := st.st_ca },
                st_labels := some ["ref"], st_cutoff := some cut }
      { title := pyShow st.st_title, atoms := st.st_ca } members labels).1).st_cutoff
      = some cut := scanFinish_fst_cutoff ..
  refine ⟨by rw [hcutoff, hcut], fun c hc => by rw [hcutoff, hcut, hc]; rfl, ?_⟩
  rw [scanFinish_fst_ensemble] at hens
  have hM := Option.some.inj hens
  subst hM
  intro ms hms
  obtain ⟨m0, hm0, hmodel, hn⟩ := alignMembers_mem hms
  rw [hm] at hm0
  rw [List.mem_append] at hm0
  rcases hm0 with hm0 | hm0
  · simp only [List.mem_singleton] at hm0
    subst hm0
    refine ⟨?_, hn⟩
    rw [hmodel, hcaEnm]
  · obtain ⟨i, _, hi⟩ := List.mem_map.mp hm0
    subst hi
    refine ⟨?_, hn⟩
    rw [hmodel, hcut]
    rfl

/-- C5 witness: the theorem applied to a concrete two-residue scan. -/
theorem scan_uniform_cutoff_nmodes_witness :
    ((scanResidues extEx stEx 2 "gnm" none).1).st_cutoff =
      some ((none : Option ℚ).getD (defaultCutoff "gnm")) ∧
    (∀ c, (none : Option ℚ) = some c →
      ((scanResidues extEx stEx 2 "gnm" none).1).st_cutoff = some c) ∧
    ∀ ms ∈ ensEx.members,
      ms.model.cutoff = (none : Option ℚ).getD (defaultCutoff "gnm") ∧ ms.nModes = 2 :=
  scan_uniform_cutoff_nmodes extEx stEx 2 "gnm" none
    (scanResidues extEx stEx 2 "gnm" none).1 ensEx rfl (by decide)

/-- C9: for every `enm` argument other than `gnm` and `anm`, the scan fails
at `calcModes` with the local `ca_enm` unbound, before any model is built:
the stored ensemble holds no members and the z-score state is unchanged. -/
theorem scanResidues_unknown_enm_unbound (ext : Ext) (st : ESSAState) (n : Nat)
    (cutoff : Option ℚ) (enm : String)
    (h1 : enm ≠ "gnm") (h2 : enm ≠ "anm") :
    (scanResidues ext st n enm cutoff).2 = some (.unboundLocal "ca_enm") ∧
    ((scanResidues ext st n enm cutoff).1).st_ensemble =
      some { title := pyShow st.st_title, atoms := st.st_ca, members := [], labels := [] } ∧
    ((scanResidues ext st n enm cutoff).1).st_zscore = st.st_zscore ∧
    ((scanResidues ext st n enm cutoff).1).st_cutoff = st.st_cutoff := by
  unfold scanResidues
  dsimp only []
  rw [buildRefStep_none st.st_ca cutoff h1 h2]
  exact ⟨rfl, rfl, rfl, rfl⟩

/-- C2: for every pocket z-score table, the filter used by `rankPockets`
is cutting at an adaptively selected threshold: `0` when the number of
pockets with non-negative normalised LHD reaches a quarter (integer
division) of the total, the 85th percentile of the normalised LHD column
otherwise; the identical threshold serves both the max-based and the
median-based ranking, so both filtered sets have equal size. -/
theorem rankPockets_threshold_adaptive (t : List PZRow) :
    filterMaxRows t = t.filter (fun r => decide (lhdThreshold t ≤ r.lhd)) ∧
    filterMedRows t = t.filter (fun r => decide (lhdThreshold t ≤ r.lhd)) ∧
    (filterMaxRows t).length = (filterMedRows t).length ∧
    (nNonneg t ≥ t.length / 4 → lhdThreshold t = 0) ∧
    (¬nNonneg t ≥ t.length / 4 → lhdThreshold t = quantile85 (lhdCol t)) := by
  have hlen : (lhdCol t).length = t.length := List.length_map t (fun r => r.lhd)
  unfold filterMaxRows filterMedRows lhdThreshold
  dsimp only []
  rw [hlen]
  by_cases hc : t.length / 4 ≤ nNonneg t
  · simp [hc]
  · simp [hc]

section SortLemmas

theorem descLe_refl (a : RankRow) : descLe a a := by
  simp [descLe]

theorem descLe_trans : ∀ (a b c : RankRow), descLe a b → descLe b c → descLe a c := by
  intro a b c hab hbc
  simp only [descLe, decide_eq_true_eq] at hab hbc ⊢
  rcases hab with h1 | ⟨h1e, h1l⟩ <;> rcases hbc with h2 | ⟨h2e, h2l⟩
  · exact Or.inl (h2.trans h1)
  · exact Or.inl (h2e ▸ h1)
  · exact Or.inl (lt_of_lt_of_le h2 (le_of_eq h1e.symm))
  · exact Or.inr ⟨h1e.trans h2e, h2l.trans h1l⟩

theorem descLe_total : ∀ (a b : RankRow), descLe a b || descLe b a := by
  intro a b
  simp only [descLe, Bool.or_eq_true, decide_eq_true_eq]
  rcases lt_trichotomy a.essa b.essa with h | h | h
  · exact Or.inr (Or.inl h)
  · rcases le_total a.lhd b.lhd with hl | hl
    · exact Or.inr (Or.inr ⟨h.symm, hl⟩)
    · exact Or.inl (Or.inr ⟨h, hl⟩)
  · exact Or.inl (Or.inl h)

theorem descLe_tie {a b : RankRow} (he : a.essa = b.essa) (hl : a.lhd = b.lhd) :
    descLe a b := by
  simp [descLe, he, hl]

theorem descLe_antisymm_keys {a b : RankRow} (h1 : descLe a b) (h2 : descLe b a) :
    a.essa = b.essa ∧ a.lhd = b.lhd := by
  simp only [descLe, decide_eq_true_eq] at h1 h2
  rcases h1 with h1 | ⟨h1e, h1l⟩ <;> rcases h2 with h2 | ⟨h2e, h2l⟩
  · exact absurd (h1.trans h2) (lt_irrefl _)
  · exact absurd (h2e ▸ h1) (lt_irrefl _)
  · exact absurd (h1e ▸ h2) (lt_irrefl _)
  · exact ⟨h1e, le_antisymm h2l h1l⟩

theorem pair_sublist_of_mem_of_ne {α : Type} {a b : α} :
    ∀ {l : List α}, a ∈ l → b ∈ l → a ≠ b →
      [a, b].Sublist l ∨ [b, a].Sublist l := by
  intro l
  induction l with
  | nil => intro ha; simp at ha
  | cons x xs ih =>
    intro ha hb hab
    rcases List.mem_cons.mp ha with hax | hax
    · subst hax
      have hb' : b ∈ xs := by
        rcases List.mem_cons.mp hb with h | h
        · exact absurd h.symm hab
        · exact h
      exact Or.inl (List.Sublist.cons₂ a (List.singleton_sublist.mpr hb'))
    · rcases List.mem_cons.mp hb with hbx | hbx
      · subst hbx
        exact Or.inr (List.Sublist.cons₂ b (List.singleton_sublist.mpr hax))
      · rcases ih hax hbx hab with h | h
        · exact Or.inl (h.cons x)
        · exact Or.inr (h.cons x)

theorem sublist_of_cons_of_ne {α : Type} {x y a : α} {t : List α}
    (hne : x ≠ a) (h : [x, y].Sublist (a :: t)) : [x, y].Sublist t := by
  cases h with
  | cons _ h => exact h
  | cons₂ _ h => exact absurd rfl hne

end SortLemmas

/-- The specification of the stable descending lexicographic sort that
pandas' multi-column `sort_values` performs on the filtered, rounded rows:
the output is a permutation of the rows, it is sorted by the descending
(ESSA, LHD) comparison, and any two rows with identical rounded values
keep their original table order. -/
def StableDescSortOf (rows out : List RankRow) : Prop :=
  out.Perm rows ∧
  out.Pairwise (fun a b => descLe a b = true) ∧
  ∀ a b : RankRow, a.essa = b.essa → a.lhd = b.lhd →
    [a, b].Sublist rows → [a, b].Sublist out

theorem stableDescSortOf_unique :
    ∀ (out1 rows out2 : List RankRow), rows.Nodup →
      StableDescSortOf rows out1 → StableDescSortOf rows out2 → out1 = out2 := by
  intro out1
  induction out1 with
  | nil =>
    intro rows out2 hnd h1 h2
    obtain ⟨hp1, -, -⟩ := h1
    obtain ⟨hp2, -, -⟩ := h2
    have hrows : rows = [] := List.perm_nil.mp hp1.symm
    subst hrows
    exact (List.perm_nil.mp hp2).symm
  | cons a t1 ih =>
    intro rows out2 hnd h1 h2
    obtain ⟨hp1, hs1, hst1⟩ := h1
    obtain ⟨hp2, hs2, hst2⟩ := h2
    cases out2 with
    | nil =>
      have hrows : rows = [] := List.perm_nil.mp hp2.symm
      subst hrows
      exact absurd (List.perm_nil.mp hp1) (by simp)
    | cons b t2 =>
      have hnd1 : (a :: t1).Nodup := hp1.nodup_iff.mpr hnd
      have hnd2 : (b :: t2).Nodup := hp2.nodup_iff.mpr hnd
      have hamem : a ∈ rows := hp1.subset (List.mem_cons_self a t1)
      have hbmem : b ∈ rows := hp2.subset (List.mem_cons_self b t2)
      have hab1 : descLe a b := by
        have hbm : b ∈ a :: t1 := hp1.mem_iff.mpr hbmem
        rcases List.mem_cons.mp hbm with he | ht
        · simpa [he] using descLe_refl a
        · exact (List.pairwise_cons.mp hs1).1 b ht
      have hba1 : descLe b a := by
        have ham : a ∈ b :: t2 := hp2.mem_iff.mpr hamem
        rcases List.mem_cons.mp ham with he | ht
        · simpa [he] using descLe_refl b
        · exact (List.pairwise_cons.mp hs2).1 a ht
      by_cases hab : a = b
      · subst hab
        refine congrArg (List.cons a) (ih (rows.erase a) t2 (hnd.erase a)
          ⟨(List.cons_perm_iff_perm_erase.mp hp1).2, (List.pairwise_cons.mp hs1).2, ?_⟩
          ⟨(List.cons_perm_iff_perm_erase.mp hp2).2, (List.pairwise_cons.mp hs2).2, ?_⟩)
        · intro x y he hl hsub
          have hx : x ≠ a := by
            have hxm : x ∈ rows.erase a := hsub.subset (by simp)
            exact ((List.Nodup.mem_erase_iff hnd).mp hxm).1
          exact sublist_of_cons_of_ne hx
            (hst1 x y he hl (hsub.trans (List.erase_sublist a rows)))
        · intro x y he hl hsub
          have hx : x ≠ a := by
            have hxm : x ∈ rows.erase a := hsub.subset (by simp)
            exact ((List.Nodup.mem_erase_iff hnd).mp hxm).1
          exact sublist_of_cons_of_ne hx
            (hst2 x y he hl (hsub.trans (List.erase_sublist a rows)))
      · exfalso
        obtain ⟨hke, hkl⟩ := descLe_antisymm_keys hab1 hba1
        rcases pair_sublist_of_mem_of_ne hamem hbmem hab with hp | hp
        · have h4 : [a, b].Sublist t2 :=
            sublist_of_cons_of_ne hab (hst2 a b hke hkl hp)
          exact (List.nodup_cons.mp hnd2).1 (h4.subset (by simp))
        · have h4 : [b, a].Sublist t1 :=
            sublist_of_cons_of_ne (Ne.symm hab) (hst1 b a hke.symm hkl.symm hp)
          exact (List.nodup_cons.mp hnd1).1 (h4.subset (by simp))

theorem mergeSort_stableDescSortOf (rows : List RankRow) :
    StableDescSortOf rows (rows.mergeSort descLe) := by
  refine ⟨List.mergeSort_perm rows descLe, ?_, ?_⟩
  · exact List.sorted_mergeSort descLe_trans descLe_total rows
  · intro a b he hl hsub
    exact List.sublist_mergeSort descLe_trans descLe_total
      (List.pairwise_pair.mpr (descLe_tie he hl)) hsub

theorem filterMaxRows_sublist (t : List PZRow) : (filterMaxRows t).Sublist t := by
  unfold filterMaxRows
  dsimp only []
  split
  · exact List.filter_sublist t
  · exact List.filter_sublist t

theorem filterMedRows_sublist (t : List PZRow) : (filterMedRows t).Sublist t := by
  unfold filterMedRows
  dsimp only []
  split
  · exact List.filter_sublist t
  · exact List.filter_sublist t

theorem roundedMaxRows_nodup (t : List PZRow)
    (hpk : (t.map (fun r => r.pocket)).Nodup) : (roundedMaxRows t).Nodup := by
  have h1 : (roundedMaxRows t).map (fun r => r.pocket) =
      (filterMaxRows t).map (fun r => r.pocket) := by
    unfold roundedMaxRows
    rw [List.map_map]
    rfl
  have h2 : ((filterMaxRows t).map (fun r => r.pocket)).Nodup :=
    List.Nodup.sublist ((filterMaxRows_sublist t).map (fun r => r.pocket)) hpk
  exact List.Nodup.of_map (fun r => r.pocket) (h1 ▸ h2)

theorem roundedMedRows_nodup (t : List PZRow)
    (hpk : (t.map (fun r => r.pocket)).Nodup) : (roundedMedRows t).Nodup := by
  have h1 : (roundedMedRows t).map (fun r => r.pocket) =
      (filterMedRows t).map (fun r => r.pocket) := by
    unfold roundedMedRows
    rw [List.map_map]
    rfl
  have h2 : ((filterMedRows t).map (fun r => r.pocket)).Nodup :=
    List.Nodup.sublist ((filterMedRows_sublist t).map (fun r => r.pocket)) hpk
  exact List.Nodup.of_map (fun r => r.pocket) (h1 ▸ h2)

/-- C3: for each of the two ranking criteria, `rankPockets` filters, then
rounds the ESSA column to 1 decimal and the LHD column to 2 decimals, and
sorts the rows descending lexicographically by (ESSA, LHD) with a stable
sort: the output is a sorted permutation of the rounded filtered rows in
which tied rows keep their original pocket order, and (determinism, given
distinct pocket numbers) it is the unique such list, so a fixed input
table always produces the same ranking. -/
theorem rankPockets_sorting_stable (t : List PZRow)
    (hpk : (t.map (fun r => r.pocket)).Nodup) :
    (StableDescSortOf (roundedMaxRows t) (sortedMaxRows t) ∧
      (∀ l, StableDescSortOf (roundedMaxRows t) l → l = sortedMaxRows t) ∧
      rankMaxIdx t = (sortedMaxRows t).map (fun r => r.pocket)) ∧
    (StableDescSortOf (roundedMedRows t) (sortedMedRows t) ∧
      (∀ l, StableDescSortOf (roundedMedRows t) l → l = sortedMedRows t) ∧
      rankMedIdx t = (sortedMedRows t).map (fun r => r.pocket)) := by
  refine ⟨⟨mergeSort_stableDescSortOf (roundedMaxRows t), ?_, rfl⟩,
    mergeSort_stableDescSortOf (roundedMedRows t), ?_, rfl⟩
  · intro l hl
    exact stableDescSortOf_unique l (roundedMaxRows t) (sortedMaxRows t)
      (roundedMaxRows_nodup t hpk) hl (mergeSort_stableDescSortOf (roundedMaxRows t))
  · intro l hl
    exact stableDescSortOf_unique l (roundedMedRows t) (sortedMedRows t)
      (roundedMedRows_nodup t hpk) hl (mergeSort_stableDescSortOf (roundedMedRows t))

/-- C3 witness: the theorem applied to a concrete four-pocket table. -/
theorem rankPockets_sorting_stable_witness :
    (StableDescSortOf (roundedMaxRows tEx) (sortedMaxRows tEx) ∧
      (∀ l, StableDescSortOf (roundedMaxRows tEx) l → l = sortedMaxRows tEx) ∧
      rankMaxIdx tEx = (sortedMaxRows tEx).map (fun r => r.pocket)) ∧
    (StableDescSortOf (roundedMedRows tEx) (sortedMedRows tEx) ∧
      (∀ l, StableDescSortOf (roundedMedRows tEx) l → l = sortedMedRows tEx) ∧
      rankMedIdx tEx = (sortedMedRows tEx).map (fun r => r.pocket)) :=
  rankPockets_sorting_stable tEx (by decide)

/-- C9 witness: the theorem applied to the `enm` argument `pca`. -/
theorem scanResidues_unknown_enm_unbound_witness :
    (scanResidues extEx stEx 2 "pca" none).2 = some (.unboundLocal "ca_enm") ∧
    ((scanResidues extEx stEx 2 "pca" none).1).st_ensemble =
      some { title := pyShow stEx.st_title, atoms := stEx.st_ca, members := [], labels := [] } ∧
    ((scanResidues extEx stEx 2 "pca" none).1).st_zscore = stEx.st_zscore ∧
    ((scanResidues extEx stEx 2 "pca" none).1).st_cutoff = stEx.st_cutoff :=
  scanResidues_unknown_enm_unbound extEx stEx 2 none "pca" (by decide) (by decide)

/-- C6: for every input structure in which no atom matches the
protein/heavy/non-hetero selectors (hence none matches the Cα selector
taken within them either), `setSystem` fails with the error raised by the
attribute access on the null selection, aborting before any scanning state
is built. -/
theorem setSystem_missing_atoms_fails (ext : Ext) (st : ESSAState)
    (atoms : AtomGroup) (lig : Option String) (dist : Option ℚ)
    (h : ∀ a ∈ atoms.atoms, ¬(a.isProtein = true ∧ a.isHeavy = true ∧ a.isHet = false)) :
    setSystem ext st atoms lig dist = .error (.attributeOfNone "ca") := by
  have hf : atoms.atoms.filter (fun a => a.isProtein && a.isHeavy && !a.isHet) = [] := by
    rw [List.filter_eq_nil_iff]
    intro a ha
    intro hc
    simp only [Bool.and_eq_true, Bool.not_eq_true'] at hc
    exact h a ha ⟨hc.1.1, hc.1.2, hc.2⟩
  unfold setSystem agSelect
  dsimp only []
  rw [hf]
  rfl

/-- C6 witness: the theorem applied to a structure holding one hetero
atom. -/
theorem setSystem_missing_atoms_fails_witness :
    setSystem extEx initESSA agHet none none = .error (.attributeOfNone "ca") :=
  setSystem_missing_atoms_fails extEx initESSA agHet none none (by decide)

/-- C7: whenever pocket scanning is requested but fpocket or pandas is
unavailable, `scanPockets` returns the null value together with a warning,
raises no error, and leaves the state, in particular the computed
per-residue z-scores, untouched. -/
theorem scanPockets_missing_dependency_null (pe : PocketExt) (st : ESSAState)
    (h : pe.fpocketPath = none ∨ pe.pandasOk = false) :
    (∃ w, scanPockets pe st = .ok (st, none, [w])) ∧
    (∀ st1 v ws, scanPockets pe st = .ok (st1, v, ws) →
      st1.st_zscore = st.st_zscore ∧ v = none) := by
  have hres : ∃ w, scanPockets pe st = .ok (st, none, [w]) := by
    unfold scanPockets
    rcases h with h | h
    · rw [h]
      exact ⟨"Fpocket 3.0 was not found, please install it.", rfl⟩
    · cases hp : pe.fpocketPath with
      | none => exact ⟨"Fpocket 3.0 was not found, please install it.", rfl⟩
      | some p =>
        rw [h]
        exact ⟨"No module named pandas was found, please install it.", rfl⟩
  obtain ⟨w, hw⟩ := hres
  refine ⟨⟨w, hw⟩, ?_⟩
  intro st1 v ws hv
  have hww := hw.symm.trans hv
  simp only [Except.ok.injEq, Prod.mk.injEq] at hww
  exact ⟨by rw [← hww.1], hww.2.1.symm⟩

/-- A sample pocket environment without fpocket installed. -/
def peEx : PocketExt :=
  { fpocketPath := none, pandasOk := true, body := fun s => .ok (s, []) }

/-- C7 witness: the theorem applied to an environment without fpocket. -/
theorem scanPockets_missing_dependency_null_witness :
    (∃ w, scanPockets peEx stEx = .ok (stEx, none, [w])) ∧
    (∀ st1 v ws, scanPockets peEx stEx = .ok (st1, v, ws) →
      st1.st_zscore = stEx.st_zscore ∧ v = none) :=
  scanPockets_missing_dependency_null peEx stEx (Or.inl rfl)

/-- C8: a system set up without a ligand specification has `st_lig = none`,
and on such a state both ligand-dependent getters emit the warning and
return the null value, raising no error. -/
theorem ligand_getters_warn_without_ligand (st : ESSAState)
    (h : st.st_lig = none) :
    getLigandResidueIndices st = (none, [warnNoLig]) ∧
    saveLigandResidueIndices st = (none, [warnNoLig]) ∧
    (∀ ext st0 atoms dist st1, setSystem ext st0 atoms none dist = .ok st1 →
      st1.st_lig = none) := by
  refine ⟨?_, ?_, ?_⟩
  · unfold getLigandResidueIndices
    rw [h]
    rfl
  · unfold saveLigandResidueIndices
    rw [h]
    rfl
  · intro ext st0 atoms dist st1 hset
    unfold setSystem at hset
    dsimp only [] at hset
    simp only [pyTruthy, Bool.false_eq_true, if_false] at hset
    cases hsel : agSelect atoms (fun a => a.isProtein && a.isHeavy && !a.isHet) with
    | none => rw [hsel] at hset; cases hset
    | some heavy =>
      rw [hsel] at hset
      dsimp only [] at hset
      simp only [pyTruthy, Bool.false_eq_true, if_false, Except.ok.injEq] at hset
      rw [← hset]

/-- C8 witness: the theorem applied to a freshly initialised state. -/
theorem ligand_getters_warn_without_ligand_witness :
    getLigandResidueIndices initESSA = (none, [warnNoLig]) ∧
    saveLigandResidueIndices initESSA = (none, [warnNoLig]) ∧
    (∀ ext st0 atoms dist st1, setSystem ext st0 atoms none dist = .ok st1 →
      st1.st_lig = none) :=
  ligand_getters_warn_without_ligand initESSA rfl

/-- C10: `setSystem` reads the `dist` keyword only when a ligand is given:
a call without a ligand returns the same result whatever `dist` holds, and
on success it leaves the ligand-distance state and the ligand-residue map
exactly as they were in the input state, hence unset (`none`) for a freshly
initialised object. -/
theorem setSystem_ignores_dist_without_lig (ext : Ext) (st : ESSAState)
    (atoms : AtomGroup) (d1 d2 : Option ℚ) (st1 : ESSAState)
    (h : setSystem ext st atoms none d1 = .ok st1) :
    setSystem ext st atoms none d1 = setSystem ext st atoms none d2 ∧
    st1.st_dist = st.st_dist ∧ st1.st_lig_idx = st.st_lig_idx ∧
    (st = initESSA → st1.st_dist = none ∧ st1.st_lig_idx = none) := by
  have hd : ∀ d : Option ℚ, setSystem ext st atoms none d =
      match agSelect atoms (fun a => a.isProtein && a.isHeavy && !a.isHet) with
      | none => .error (.attributeOfNone "ca")
      | some heavy =>
        .ok { st with st_atoms := some atoms, st_title := some atoms.title,
                      st_lig := none, st_heavy := some heavy, st_ca := selCA heavy } := by
    intro d
    unfold setSystem
    dsimp only []
    cases agSelect atoms (fun a => a.isProtein && a.isHeavy && !a.isHet) <;> rfl
  constructor
  · rw [hd d1, hd d2]
  · rw [hd d1] at h
    cases hsel : agSelect atoms (fun a => a.isProtein && a.isHeavy && !a.isHet) with
    | none => rw [hsel] at h; cases h
    | some heavy =>
      rw [hsel] at h
      have h1 := Except.ok.inj h
      refine ⟨by rw [← h1], by rw [← h1], fun hinit => ?_⟩
      subst hinit
      exact ⟨by rw [← h1]; rfl, by rw [← h1]; rfl⟩

/-- C10 witness: the theorem applied to a fresh state with two different
`dist` values. -/
theorem setSystem_ignores_dist_without_lig_witness :
    setSystem extEx initESSA agEx none (some 3) =
      setSystem extEx initESSA agEx none (some 7) ∧
    ((setSystem extEx initESSA agEx none (some 3)).toOption.getD initESSA).st_dist =
      initESSA.st_dist ∧
    ((setSystem extEx initESSA agEx none (some 3)).toOption.getD initESSA).st_lig_idx =
      initESSA.st_lig_idx ∧
    (initESSA = initESSA →
      ((setSystem extEx initESSA agEx none (some 3)).toOption.getD initESSA).st_dist = none ∧
      ((setSystem extEx initESSA agEx none (some 3)).toOption.getD initESSA).st_lig_idx = none) :=
  setSystem_ignores_dist_without_lig extEx initESSA agEx (some 3) (some 7)
    ((setSystem extEx initESSA agEx none (some 3)).toOption.getD initESSA) rfl

end EssaSpec
